import Mathlib

/-!
# Verification of the Shadowserver ingestion / dedup engine

A shallow embedding of the core logic of the repository:

* `shadowserver_files_processor.py` — the ingestion run: schema
  normalization, issue tagging from the file name, recurring-issue
  resolution against the current store, newest-first append, final sort,
  persist and processed-file ledger update.
* `deduplicate_records.py` — `deduplicate_and_update`: the offline
  compaction pass over the persisted store.
* `script_V3.0.py` — an earlier CLI variant; its second copy of
  `extract_issue_from_filename` differs from the one in
  `shadowserver_files_processor.py` and is embedded separately.

Modelling conventions:

* pandas tables read with `dtype=str` become lists of records whose cells
  are `Option String` (`none` models a missing cell, pandas `NaN`).
* `pd.to_datetime(_, errors='coerce')` is abstracted as an explicit
  parameter `parse : Option String → Option Int` (`none` models `NaT`);
  the particular calendar arithmetic is irrelevant to every property
  below, only parsability and the order of parsed values matter.
* `pd.to_numeric(_, errors='coerce').fillna(0).astype(int)` is modelled
  by `toNumericFillna0` on decimal literals, truncating fractional parts
  toward zero as `astype(int)` does.
* pandas' multi-column `sort_values` (numpy lexsort) and `groupby`
  (`sort=True`, order-preserving within groups) are stable; they are
  modelled with Mathlib's stable `List.insertionSort` and with grouping
  of equal-key runs of the sorted list.
-/

/-! ## String helpers (models of Python `str.strip`, `str.lower`, `str.replace`) -/

def isSpaceChar (c : Char) : Bool := c = ' ' || c = '\t' || c = '\n' || c = '\r'

def trimChars (l : List Char) : List Char :=
  ((l.dropWhile isSpaceChar).reverse.dropWhile isSpaceChar).reverse

/-- Python `str.strip()` on the ASCII whitespace that occurs in the data. -/
def strTrim (s : String) : String := String.mk (trimChars s.data)

def lowerChar (c : Char) : Char :=
  if 'A' ≤ c && c ≤ 'Z' then Char.ofNat (c.toNat + 32) else c

/-- Python `str.lower()` (ASCII). -/
def strLower (s : String) : String := String.mk (s.data.map lowerChar)

/-- Python `str.endswith(suffix)`. -/
def strEndsWith (s suf : String) : Bool := suf.data.isSuffixOf s.data

/-! ## Issue Tagger: `extract_issue_from_filename`

The regex `scan_([^-.]+)` searched left to right: at each position, the
literal `scan_` must match and the capture group needs at least one
character that is neither `-` nor `.`; on failure the search resumes at
the next position. -/

def scanMarker : List Char := ['s', 'c', 'a', 'n', '_']

def findScanToken : List Char → Option (List Char)
  | [] => none
  | c :: rest =>
    if scanMarker.isPrefixOf (c :: rest) then
      let tok := ((c :: rest).drop 5).takeWhile (fun d => !(d = '-' || d = '.'))
      if tok.isEmpty then findScanToken rest else some tok
    else
      findScanToken rest

def underscoreToSpace (l : List Char) : List Char :=
  l.map (fun c => if c = '_' then ' ' else c)

/-- `match.group(1).replace('_', ' ').strip().lower()` -/
def cleanToken (tok : List Char) : String :=
  strLower (String.mk (trimChars (underscoreToSpace tok)))

/-- `extract_issue_from_filename` of `shadowserver_files_processor.py`
(lines 39–43): returns `None` when the marker is absent. -/
def extract_issue_from_filename (filename : String) : Option String :=
  match findScanToken filename.data with
  | some tok => some (cleanToken tok)
  | none => none

/-- `extract_issue_from_filename` of `script_V3.0.py` (lines 142–147):
returns the sentinel `"unknown issue"` when the marker is absent. -/
def extract_issue_v3 (filename : String) : String :=
  match findScanToken filename.data with
  | some tok => cleanToken tok
  | none => "unknown issue"

/-! ## `pd.to_numeric(x, errors='coerce').fillna(0).astype(int)` -/

def digitsToNat (l : List Char) : Nat :=
  l.foldl (fun a c => a * 10 + (c.toNat - 48)) 0

/-- A decimal integer literal with optional sign. -/
def parseDecInt (s : String) : Option Int :=
  match s.data with
  | [] => none
  | '-' :: rest =>
    if rest ≠ [] ∧ rest.all Char.isDigit then some (-(digitsToNat rest : Int)) else none
  | '+' :: rest =>
    if rest ≠ [] ∧ rest.all Char.isDigit then some ((digitsToNat rest : Int)) else none
  | l => if l.all Char.isDigit then some ((digitsToNat l : Int)) else none

/-- Split a character list at every `'.'`. -/
def splitDotAux : List Char → List Char → List (List Char)
  | [], acc => [acc.reverse]
  | '.' :: rest, acc => acc.reverse :: splitDotAux rest []
  | c :: rest, acc => splitDotAux rest (c :: acc)

def splitDot (l : List Char) : List (List Char) := splitDotAux l []

/-- What `pd.to_numeric(s, errors='coerce')` followed by `astype(int)`
makes of one text cell: an integer literal parses to its value, a decimal
fraction is truncated toward zero, anything else is `NaN` (`none`). -/
def numericVal (s : String) : Option Int :=
  let t := strTrim s
  match parseDecInt t with
  | some n => some n
  | none =>
    match splitDot t.data with
    | [a, b] =>
      if b.all Char.isDigit ∧ (b ≠ [] ∨ (parseDecInt (String.mk a)).isSome) then
        some ((parseDecInt (String.mk a)).getD 0)
      else none
    | _ => none

/-- The coercion applied to the `Recurring Issue` column before any
recurrence arithmetic, at `shadowserver_files_processor.py` line 125 and
`deduplicate_records.py` line 29:
`pd.to_numeric(_, errors='coerce').fillna(0).astype(int)` — numeric text
parses to its value, everything else — missing, empty, non-numeric —
becomes `0`. -/
def toNumericFillna0 (v : Option String) : Int :=
  (v.bind numericVal).getD 0

/-! ## Dedup Compactor: `deduplicate_and_update` (`deduplicate_records.py`)

The store CSV is loaded with `dtype=str`; `Timestamp` is then replaced by
`pd.to_datetime(_, errors='coerce')` and `Recurring Issue` by the numeric
coercion; rows with a missing key field or an unparsable timestamp are
dropped (`df.dropna(subset=key_columns + ['Timestamp'], inplace=True)` —
in place, so the later `len(df)` sees the filtered length); the rest is
sorted by the five key columns ascending then timestamp descending,
grouped by key, and each group is collapsed onto its first row. -/

/-- One row of the persisted store (`destination.csv`) as
`pd.read_csv(_, dtype=str)` loads it: every cell an optional string
(`none` = `NaN`). `rest` carries the pass-through workflow columns. -/
structure CsvRow where
  timestamp : Option String
  severity : Option String
  ip : Option String
  protocol : Option String
  port : Option String
  state : Option String
  issue : Option String
  recurring : Option String
  rest : List (Option String)
deriving DecidableEq

/-- A row that survived the `dropna` filter: all five key fields present,
timestamp parsed, `Recurring Issue` coerced to an integer. -/
structure KeyedRow where
  severity : String
  ip : String
  protocol : String
  port : String
  state : String
  ts : Int
  issue : Option String
  recurring : Int
  rest : List (Option String)
deriving DecidableEq

/-- `to_datetime` + `to_numeric` preparation and the `dropna` filter on
`['Severity', 'IP', 'Protocol', 'Port', 'State', 'Timestamp']`, fused:
a row maps to `none` exactly when `dropna` drops it. -/
def toKeyed (parse : Option String → Option Int) (r : CsvRow) : Option KeyedRow :=
  match parse r.timestamp, r.severity, r.ip, r.protocol, r.port, r.state with
  | some t, some sev, some ipv, some proto, some prt, some st =>
    some ⟨sev, ipv, proto, prt, st, t, r.issue, toNumericFillna0 r.recurring, r.rest⟩
  | _, _, _, _, _, _ => none

/-- The five-column compaction key
`['Severity', 'IP', 'Protocol', 'Port', 'State']`, ordered
lexicographically as the multi-column `sort_values` orders it
(string values compared as their character sequences). -/
abbrev Key5 :=
  Lex (List Char × Lex (List Char × Lex (List Char × Lex (List Char × List Char))))

def keyOf (r : KeyedRow) : Key5 :=
  toLex (r.severity.data,
    toLex (r.ip.data, toLex (r.protocol.data, toLex (r.port.data, r.state.data))))

def keyEqB (a b : KeyedRow) : Bool := decide (keyOf a = keyOf b)

/-- The order of
`df.sort_values(by=key_columns + ['Timestamp'], ascending=[True]*5 + [False])`:
key ascending, timestamp descending. -/
def keyTsRel (a b : KeyedRow) : Prop :=
  keyOf a < keyOf b ∨ (keyOf a = keyOf b ∧ b.ts ≤ a.ts)

instance : DecidableRel keyTsRel := fun a b => by
  unfold keyTsRel; infer_instance

instance : IsTotal KeyedRow keyTsRel where
  total a b := by
    rcases lt_trichotomy (keyOf a) (keyOf b) with h | h | h
    · exact Or.inl (Or.inl h)
    · rcases le_total b.ts a.ts with ht | ht
      · exact Or.inl (Or.inr ⟨h, ht⟩)
      · exact Or.inr (Or.inr ⟨h.symm, ht⟩)
    · exact Or.inr (Or.inl h)

instance : IsTrans KeyedRow keyTsRel where
  trans a b c hab hbc := by
    rcases hab with hab | ⟨hab, tab⟩
    · rcases hbc with hbc | ⟨hbc, _⟩
      · exact Or.inl (hab.trans hbc)
      · exact Or.inl (hbc ▸ hab)
    · rcases hbc with hbc | ⟨hbc, tbc⟩
      · exact Or.inl (hab ▸ hbc)
      · exact Or.inr ⟨hab.trans hbc, tbc.trans tab⟩

/-- The final `df_final.sort_values(by='Timestamp', ascending=False)`. -/
def tsDescRel (a b : KeyedRow) : Prop := b.ts ≤ a.ts

instance : DecidableRel tsDescRel := fun a b => by
  unfold tsDescRel; infer_instance

instance : IsTotal KeyedRow tsDescRel where
  total a b := le_total b.ts a.ts

instance : IsTrans KeyedRow tsDescRel where
  trans _ _ _ hab hbc := le_trans hbc hab

/-- Accumulating worker for `groupRuns`: `x` is the first row of the run
being built, `acc` its later rows so far (reversed). -/
def groupRunsAux (eq : α → α → Bool) : List α → α → List α → List (α × List α)
  | [], x, acc => [(x, acc.reverse)]
  | y :: ys, x, acc =>
    if eq x y then groupRunsAux eq ys x (y :: acc)
    else (x, acc.reverse) :: groupRunsAux eq ys y []

/-- `df_sorted.groupby(key_columns)` on the key-sorted list: maximal runs
of equal keys, each as (first row, remaining rows of the group). -/
def groupRuns (eq : α → α → Bool) : List α → List (α × List α)
  | [] => []
  | x :: xs => groupRunsAux eq xs x []

/-- One loop body: `latest_record = group.iloc[0]`,
`num_duplicates = len(group) - 1`, and the `Recurring Issue` update when
`num_duplicates > 0`. -/
def keepRun (g : KeyedRow × List KeyedRow) : KeyedRow :=
  let latest := g.1
  let numDuplicates := g.2.length
  if numDuplicates > 0 then
    { latest with recurring := latest.recurring + (numDuplicates : Int) }
  else latest

/-- The compaction pass from the prepared (post-`dropna`) rows on. -/
def dedupKeyed (rows : List KeyedRow) : List KeyedRow :=
  let sorted := List.insertionSort keyTsRel rows
  let finalRecords := (groupRuns keyEqB sorted).map keepRun
  List.insertionSort tsDescRel finalRecords

/-- `deduplicate_and_update` of `deduplicate_records.py`, from the loaded
store to the list of records written to the output file. -/
def deduplicate_and_update (parse : Option String → Option Int)
    (store : List CsvRow) : List KeyedRow :=
  dedupKeyed (store.filterMap (toKeyed parse))

/-- The removed-records count printed at line 76:
`len(df) - len(df_final)`, where `df` was filtered **in place** by
`dropna`, so its length at this point is the post-filter length. -/
def removedReported (parse : Option String → Option Int)
    (store : List CsvRow) : Int :=
  ((store.filterMap (toKeyed parse)).length : Int)
    - ((deduplicate_and_update parse store).length : Int)

/-! ## Ingestion run: `shadowserver_files_processor.py`

The destination table (`df_dest`) is loaded with `dtype=str` and its
`Recurring Issue` column is coerced to `int` (line 125) before any
matching; source rows are normalized per file, tagged, resolved against
the current store, prepended, and the whole store is finally sorted by
parsed timestamp descending with nulls last. -/

/-- A record of the in-memory destination table during a run.
`recurring` is an integer (the column has been through the line-125
coercion); the remaining nine workflow columns sit in `rest`. -/
structure StoreRec where
  timestamp : Option String
  severity : Option String
  ip : Option String
  protocol : Option String
  port : Option String
  state : Option String
  issue : Option String
  recurring : Int
  hostname : Option String
  region : Option String
  city : Option String
  rest : List (Option String)
deriving DecidableEq

/-- A persisted destination row as `read_csv(dtype=str)` returns it,
before the `Recurring Issue` coercion. -/
structure RawStoreRec where
  timestamp : Option String
  severity : Option String
  ip : Option String
  protocol : Option String
  port : Option String
  state : Option String
  issue : Option String
  recurring : Option String
  hostname : Option String
  region : Option String
  city : Option String
  rest : List (Option String)
deriving DecidableEq

/-- Loading the destination store: the `Recurring Issue` column goes
through `pd.to_numeric(_, errors='coerce').fillna(0).astype(int)`
(`shadowserver_files_processor.py` line 125). -/
def loadStore (raw : List RawStoreRec) : List StoreRec :=
  raw.map fun r =>
    ⟨r.timestamp, r.severity, r.ip, r.protocol, r.port, r.state, r.issue,
     toNumericFillna0 r.recurring, r.hostname, r.region, r.city, r.rest⟩

/-- A raw source file: its name, whether reading it succeeds, the source
column names its header contains, and its rows as cells addressed by
column name (`none` = `NaN`). -/
structure SrcFile where
  name : String
  readable : Bool
  cols : List String
  rows : List (List (String × Option String))

/-- The keys of `column_map`, in dictionary order. -/
def sourceCols : List String :=
  ["timestamp", "severity", "ip", "protocol", "port", "hostname", "region", "city"]

/-- `valid_cols = [col for col in column_map if col in df_src.columns]` -/
def validCols (f : SrcFile) : List String :=
  sourceCols.filter (fun c => f.cols.contains c)

/-- The cell of `row` in source column `c`, stripped
(`df_src.apply(lambda x: x.str.strip() ...)`); `none` when the cell is
`NaN` or the column is absent. -/
def cellV (row : List (String × Option String)) (c : String) : Option String :=
  match row.find? (fun p => p.1 == c) with
  | some p => p.2.map strTrim
  | none => none

/-- `temp.dropna(how='all')` drops a row iff every mapped (valid) cell is
missing. -/
def rowAllNa (f : SrcFile) (row : List (String × Option String)) : Bool :=
  (validCols f).all (fun c => (cellV row c).isNone)

/-- A mapped destination field: the stripped source cell when the source
column exists in the file, else the empty-string fill
(`temp[col] = ""`). -/
def fieldFrom (f : SrcFile) (row : List (String × Option String)) (c : String) :
    Option String :=
  if f.cols.contains c then cellV row c else some ""

/-- One normalized + tagged destination row: mapped fields from the
source cells, `State = 'open'`, `Issue` from the file name,
`Recurring Issue = 0`, all other destination columns `""`. -/
def mkRec (f : SrcFile) (row : List (String × Option String)) : StoreRec :=
  { timestamp := fieldFrom f row "timestamp"
    severity := fieldFrom f row "severity"
    ip := fieldFrom f row "ip"
    protocol := fieldFrom f row "protocol"
    port := fieldFrom f row "port"
    state := some "open"
    issue := extract_issue_from_filename f.name
    recurring := 0
    hostname := fieldFrom f row "hostname"
    region := fieldFrom f row "region"
    city := fieldFrom f row "city"
    rest := List.replicate 9 (some "") }

/-- Normalization of one source file (lines 84–118): `none` models every
skip path — read failure, no matching columns, or no row surviving
`dropna(how='all')`. -/
def normalizeFile (f : SrcFile) : Option (List StoreRec) :=
  if f.readable = false then none
  else if validCols f = [] then none
  else
    match f.rows.filter (fun row => !(rowAllNa f row)) with
    | [] => none
    | kept => some (kept.map (mkRec f))

/-- pandas elementwise `==` on two `dtype=str` cells: `NaN` compares
unequal to everything, itself included. -/
def optEq (a b : Option String) : Bool :=
  match a, b with
  | some x, some y => x == y
  | _, _ => false

/-- pandas elementwise `!=`: the negation of `optEq`, so two `NaN`
timestamps compare unequal. -/
def optNe (a b : Option String) : Bool := !(optEq a b)

/-- The match condition of the recurring-issue detection loop
(lines 128–136): the six key columns equal and the timestamps unequal. -/
def rowMatches (r n : StoreRec) : Bool :=
  optEq r.severity n.severity && optEq r.ip n.ip && optEq r.protocol n.protocol &&
    optEq r.port n.port && optEq r.state n.state && optEq r.issue n.issue &&
    optNe r.timestamp n.timestamp

/-- One iteration of the detection loop: when matches exist, the new
row's `Recurring Issue` becomes `matches['Recurring Issue'].max() + 1`;
otherwise the row is left as initialized. -/
def resolveRow (store : List StoreRec) (n : StoreRec) : StoreRec :=
  match store.filter (fun r => rowMatches r n) with
  | [] => n
  | m :: ms => { n with recurring := (ms.map (fun r => r.recurring)).foldl max m.recurring + 1 }

/-- The whole detection loop over a file's batch; `df_dest` is unchanged
while the batch is processed (the concat happens after the loop). -/
def resolveBatch (store batch : List StoreRec) : List StoreRec :=
  batch.map (resolveRow store)

/-- `filename.endswith('.csv') or filename.endswith('.xlsx')` -/
def isTabularName (name : String) : Bool :=
  strEndsWith name ".csv" || strEndsWith name ".xlsx"

/-- The per-file loop (lines 74–144): skip non-tabular names, skip names
in the processed set loaded at start, skip files normalization rejects;
otherwise resolve the batch against the current store, prepend it
(`pd.concat([temp, df_dest])`), and remember the file name. -/
def ingestLoop (processed : List String) :
    List SrcFile → List StoreRec → List String → List StoreRec × List String
  | [], store, newly => (store, newly)
  | f :: fs, store, newly =>
    if isTabularName f.name = false then ingestLoop processed fs store newly
    else if processed.contains f.name then ingestLoop processed fs store newly
    else
      match normalizeFile f with
      | none => ingestLoop processed fs store newly
      | some batch =>
        ingestLoop processed fs (resolveBatch store batch ++ store) (newly ++ [f.name])

/-- "`x` sorts at or before `y`" for timestamps descending with
unparsable (`none`) timestamps last. -/
def optTsLe (x y : Option Int) : Prop :=
  match x, y with
  | some a, some b => b ≤ a
  | some _, none => True
  | none, some _ => False
  | none, none => True

instance : DecidableRel optTsLe := fun x y =>
  match x, y with
  | some a, some b => inferInstanceAs (Decidable (b ≤ a))
  | some _, none => inferInstanceAs (Decidable True)
  | none, some _ => inferInstanceAs (Decidable False)
  | none, none => inferInstanceAs (Decidable True)

theorem optTsLe_total (x y : Option Int) : optTsLe x y ∨ optTsLe y x := by
  rcases x with _ | a <;> rcases y with _ | b <;> simp [optTsLe] <;> omega

theorem optTsLe_trans {x y z : Option Int} (h1 : optTsLe x y) (h2 : optTsLe y z) :
    optTsLe x z := by
  rcases x with _ | a <;> rcases y with _ | b <;> rcases z with _ | c <;>
    simp [optTsLe] at * <;> omega

/-- The order of the final
`sort_values(by='Timestamp', ascending=False, na_position='last')` after
`pd.to_datetime(_, errors='coerce')`: parsed timestamps descending,
unparsable ones last. -/
def storeTsRel (parse : Option String → Option Int) (a b : StoreRec) : Prop :=
  optTsLe (parse a.timestamp) (parse b.timestamp)

instance (parse : Option String → Option Int) : DecidableRel (storeTsRel parse) :=
  fun a b => inferInstanceAs (Decidable (optTsLe (parse a.timestamp) (parse b.timestamp)))

instance (parse : Option String → Option Int) : IsTotal StoreRec (storeTsRel parse) where
  total a b := optTsLe_total _ _

instance (parse : Option String → Option Int) : IsTrans StoreRec (storeTsRel parse) where
  trans _ _ _ hab hbc := optTsLe_trans hab hbc

/-- One whole ingestion run, from the already-loaded store and processed
set to the finally-sorted store, the list of newly processed file names,
and the updated processed set (ledger). -/
def runIngest (parse : Option String → Option Int) (files : List SrcFile)
    (store0 : List StoreRec) (processed : List String) :
    List StoreRec × List String × List String :=
  let sn := ingestLoop processed files store0 []
  (List.insertionSort (storeTsRel parse) sn.1, sn.2, processed ++ sn.2)

/-- The end of the run (lines 150–165): the store save is attempted
inside `try/except` whose handler only prints, and then the processed
log is appended — whether or not the save succeeded. Returns (store
persisted?, ledger contents after the run). -/
def finalizeRun (saveFails logFails : Bool) (newly ledgerFile : List String) :
    Bool × List String :=
  (!saveFails,
   if newly ≠ [] ∧ logFails = false then ledgerFile ++ newly else ledgerFile)

/-! ## Concrete data for witnesses and counterexamples

`parseDigits` is a concrete instantiation of the abstract
`pd.to_datetime` parameter: timestamps written as decimal integers. -/

def parseDigits : Option String → Option Int := fun s => s.bind parseDecInt

/-- A stored record: High/10.0.0.1/tcp/443/open/ssl weak at time 1,
already seen twice. -/
def storeRecA : StoreRec :=
  ⟨some "1", some "High", some "10.0.0.1", some "tcp", some "443", some "open",
   some "ssl weak", 2, some "", some "", some "", []⟩

/-- An incoming normalized row with the same natural key at time 2. -/
def incomingRecA : StoreRec :=
  ⟨some "2", some "High", some "10.0.0.1", some "tcp", some "443", some "open",
   some "ssl weak", 0, some "", some "", some "", []⟩

/-- A persisted-store row as the compactor loads it (time 1). -/
def csvRowA : CsvRow :=
  ⟨some "1", some "High", some "10.0.0.1", some "tcp", some "443", some "open",
   some "ssl", some "0", []⟩

/-- Same five-field key as `csvRowA`, later timestamp, counter 1. -/
def csvRowB : CsvRow :=
  ⟨some "2", some "High", some "10.0.0.1", some "tcp", some "443", some "open",
   some "ssl", some "1", []⟩

/-- A row with a missing `IP` cell: the `dropna` filter excludes it. -/
def csvRowNoIp : CsvRow :=
  ⟨some "3", some "High", none, some "tcp", some "443", some "open",
   some "ssl", some "0", []⟩

/-- A source file whose single row has a timestamp but a missing (`NaN`)
`ip` cell. -/
def srcFileNoIp : SrcFile :=
  ⟨"scan_x.csv", true, ["timestamp", "ip"], [[("timestamp", some "1"), ("ip", none)]]⟩

/-- A raw persisted row whose `Recurring Issue` cell holds corrupted
text. -/
def rawRecCorrupt : RawStoreRec :=
  ⟨some "1", some "High", some "10.0.0.1", some "tcp", some "443", some "open",
   some "ssl weak", some "corrupted", some "", some "", some "", []⟩

/-- A store record with every matching-relevant cell present (no `NaN`). -/
def populatedRec (r : StoreRec) : Prop :=
  r.timestamp.isSome = true ∧ r.severity.isSome = true ∧ r.ip.isSome = true ∧
    r.protocol.isSome = true ∧ r.port.isSome = true ∧ r.state.isSome = true ∧
    r.issue.isSome = true

/-! # Helper lemmas -/

theorem normalizeFile_some {f : SrcFile} {batch : List StoreRec}
    (hb : normalizeFile f = some batch) :
    batch = (f.rows.filter (fun row => !(rowAllNa f row))).map (mkRec f) := by
  unfold normalizeFile at hb
  split at hb
  · exact absurd hb (by simp)
  · split at hb
    · exact absurd hb (by simp)
    · rcases hk : f.rows.filter (fun row => !(rowAllNa f row)) with _ | ⟨r, rs⟩ <;>
        rw [hk] at hb
      · exact absurd hb (by simp)
      · exact (Option.some_inj.mp hb).symm

theorem countP_isSome_add_isNone (f : α → Option β) (l : List α) :
    l.countP (fun a => (f a).isSome) + l.countP (fun a => (f a).isNone)
      = l.length := by
  induction l with
  | nil => rfl
  | cons x xs ih =>
    rcases hx : f x with _ | y <;> simp [List.countP_cons, hx] <;> omega

theorem length_filterMap_eq_countP (f : α → Option β) (l : List α) :
    (l.filterMap f).length = l.countP (fun a => (f a).isSome) := by
  induction l with
  | nil => rfl
  | cons x xs ih =>
    rcases hx : f x with _ | y <;>
      simp [List.filterMap_cons, List.countP_cons, hx, ih]

/-! # Claim theorems -/

/-- C1: the recurring-issue detection loop counts a stored record as a
match iff the six natural-key columns compare (pandas-)equal and the
timestamps compare unequal — for fully populated records this is plain
value equality of the six fields plus value inequality of the
timestamps; with at least one match, the incoming row's counter becomes
the maximum matched counter plus one, and with none it stays 0. -/
theorem c1_recurrence_resolver (store : List StoreRec) (n : StoreRec)
    (h0 : n.recurring = 0) :
    (store.filter (fun r => rowMatches r n) = [] →
      (resolveRow store n).recurring = 0)
    ∧ (∀ m ms, store.filter (fun r => rowMatches r n) = m :: ms →
      (resolveRow store n).recurring
        = (ms.map (fun r => r.recurring)).foldl max m.recurring + 1)
    ∧ (∀ r ∈ store, populatedRec r → populatedRec n →
      (rowMatches r n = true ↔
        (r.severity = n.severity ∧ r.ip = n.ip ∧ r.protocol = n.protocol ∧
          r.port = n.port ∧ r.state = n.state ∧ r.issue = n.issue ∧
          r.timestamp ≠ n.timestamp))) := by
  refine ⟨?_, ?_, ?_⟩
  · intro h
    simp only [resolveRow, h]
    exact h0
  · intro m ms h
    simp only [resolveRow, h]
  · rintro r _ ⟨hrt, hrs, hri, hrp, hrpo, hrst, hriss⟩
      ⟨hnt, hns, hni, hnp, hnpo, hnst, hniss⟩
    rcases Option.isSome_iff_exists.mp hrt with ⟨rt, hrt⟩
    rcases Option.isSome_iff_exists.mp hrs with ⟨rs, hrs⟩
    rcases Option.isSome_iff_exists.mp hri with ⟨ri, hri⟩
    rcases Option.isSome_iff_exists.mp hrp with ⟨rp, hrp⟩
    rcases Option.isSome_iff_exists.mp hrpo with ⟨rpo, hrpo⟩
    rcases Option.isSome_iff_exists.mp hrst with ⟨rst, hrst⟩
    rcases Option.isSome_iff_exists.mp hriss with ⟨riss, hriss⟩
    rcases Option.isSome_iff_exists.mp hnt with ⟨nt, hnt⟩
    rcases Option.isSome_iff_exists.mp hns with ⟨ns, hns⟩
    rcases Option.isSome_iff_exists.mp hni with ⟨ni, hni⟩
    rcases Option.isSome_iff_exists.mp hnp with ⟨np, hnp⟩
    rcases Option.isSome_iff_exists.mp hnpo with ⟨npo, hnpo⟩
    rcases Option.isSome_iff_exists.mp hnst with ⟨nst, hnst⟩
    rcases Option.isSome_iff_exists.mp hniss with ⟨niss, hniss⟩
    simp [rowMatches, optEq, optNe, hrt, hrs, hri, hrp, hrpo, hrst, hriss,
      hnt, hns, hni, hnp, hnpo, hnst, hniss, and_assoc]

/-- C1 witness: one stored record with counter 2 and a matching incoming
row at a different timestamp resolve to counter 3. -/
theorem c1_recurrence_resolver_witness :
    (resolveRow [storeRecA] incomingRecA).recurring = 3 :=
  ((c1_recurrence_resolver [storeRecA] incomingRecA rfl).2.1 storeRecA []
    (by decide)).trans (by decide)

/-- C3 counterexample: ingesting a file whose only row has a timestamp
cell but a missing `ip` cell puts a record with a missing IP into the
store — `dropna(how='all')` only drops rows with every mapped cell
missing, so the claimed invariant fails. -/
theorem c3_counterexample :
    ((runIngest parseDigits [srcFileNoIp] [] []).1).any (fun r => r.ip.isNone)
      = true := by decide

/-- C3 amended: normalization drops a source row iff all of its mapped
cells are missing; a row with some mapped cell present is admitted even
when its `ip` cell is missing (IP stays missing when the `ip` column
exists, and is filled with `""` when it does not). -/
theorem c3_amended (f : SrcFile) (batch : List StoreRec)
    (hb : normalizeFile f = some batch) :
    batch = (f.rows.filter (fun row => !(rowAllNa f row))).map (mkRec f)
    ∧ (∀ row, rowAllNa f row = false ↔
        ∃ c ∈ validCols f, (cellV row c).isSome = true)
    ∧ (∀ row, f.cols.contains "ip" = true → (mkRec f row).ip = cellV row "ip")
    ∧ (∀ row, f.cols.contains "ip" = false → (mkRec f row).ip = some "") := by
  refine ⟨normalizeFile_some hb, ?_, ?_, ?_⟩
  · intro row
    simp [rowAllNa, List.all_eq_false, Option.isNone_iff_eq_none,
      Option.isSome_iff_ne_none]
  · intro row h
    have hm : "ip" ∈ f.cols := by simpa using h
    simp [mkRec, fieldFrom, hm]
  · intro row h
    have hm : "ip" ∉ f.cols := by simpa using h
    simp [mkRec, fieldFrom, hm]

/-- C3 amended witness: the file with a present timestamp cell and a
missing ip cell — its row is kept, and is kept with `ip = none`. -/
theorem c3_amended_witness :
    rowAllNa srcFileNoIp [("timestamp", some "1"), ("ip", none)] = false ∧
    (mkRec srcFileNoIp [("timestamp", some "1"), ("ip", none)]).ip = none := by
  have h := c3_amended srcFileNoIp
    [⟨some "1", some "", none, some "", some "", some "open", some "x", 0,
      some "", some "", some "", List.replicate 9 (some "")⟩] (by decide)
  refine ⟨?_, ?_⟩
  · have h2 := (h.2.1 [("timestamp", some "1"), ("ip", none)]).mpr
      ⟨"timestamp", by decide, by decide⟩
    exact h2
  · have h3 := h.2.2.1 [("timestamp", some "1"), ("ip", none)] (by decide)
    rw [h3]; decide

/-- C4: the code contradicts the claim — the final save sits in a
`try/except` whose handler only prints, and the processed-log append
runs afterwards unconditionally, so a run whose final persist failed
(first argument `true`) with one newly processed file still appends that
file name to the ledger. -/
theorem c4_ledger_updated_despite_failed_persist :
    finalizeRun true false ["scan_ssl_weak-2024.csv"] []
      = (false, ["scan_ssl_weak-2024.csv"]) := by decide

/-- C5 counterexample: the Issue Tagger of
`shadowserver_files_processor.py` returns an absent value (`None`), not
an "unknown" sentinel, when the file name has no `scan_` marker. -/
theorem c5_counterexample :
    extract_issue_from_filename "report.csv" = none := by decide

/-- C5 amended: when the marker is absent, the `script_V3.0.py` copy of
the tagger returns the explicit non-empty sentinel `"unknown issue"`,
but the `shadowserver_files_processor.py` tagger returns an absent value
(`None`); either label is stamped uniformly, so every row of such a file
enters the store with an absent `Issue`. -/
theorem c5_amended (filename : String)
    (h : findScanToken filename.data = none) :
    extract_issue_from_filename filename = none
    ∧ extract_issue_v3 filename = "unknown issue"
    ∧ ("unknown issue" : String) ≠ ""
    ∧ (∀ (f : SrcFile) (batch : List StoreRec), f.name = filename →
        normalizeFile f = some batch → ∀ r ∈ batch, r.issue = none) := by
  refine ⟨?_, ?_, by decide, ?_⟩
  · simp [extract_issue_from_filename, h]
  · simp [extract_issue_v3, h]
  · intro f batch hname hb r hr
    rw [normalizeFile_some hb] at hr
    rcases List.mem_map.mp hr with ⟨row, _, hrow⟩
    rw [← hrow]
    simp [mkRec, extract_issue_from_filename, hname, h]

/-- C5 amended witness: a marker-less name gets the non-empty sentinel
from the V3 tagger and `None` from the processor tagger. -/
theorem c5_amended_witness :
    extract_issue_from_filename "report.csv" = none ∧
    extract_issue_v3 "report.csv" = "unknown issue" :=
  ⟨(c5_amended "report.csv" (by decide)).1,
    (c5_amended "report.csv" (by decide)).2.1⟩

/-- C9 counterexample: a store of three records — one dropped by the
missing-key filter and two collapsing duplicates — has the reported
removed count 1, while input size minus output size is 2: the filter's
casualties are not counted, because `dropna(..., inplace=True)` shrank
`df` before `len(df) - len(df_final)` was computed. -/
theorem c9_counterexample :
    removedReported parseDigits [csvRowNoIp, csvRowA, csvRowB] = 1 ∧
    ((([csvRowNoIp, csvRowA, csvRowB] : List CsvRow).length : Int)
        - ((deduplicate_and_update parseDigits
            [csvRowNoIp, csvRowA, csvRowB]).length : Int)) = 2 := by
  exact ⟨by decide, by decide⟩

/-- C9 amended: the reported removed count equals input size minus
output size minus the number of records excluded by the
unparsable-timestamp / missing-key filter (filter-dropped records are
never counted as removed). -/
theorem c9_amended (parse : Option String → Option Int) (store : List CsvRow) :
    removedReported parse store
      = (store.length : Int)
        - ((deduplicate_and_update parse store).length : Int)
        - (store.countP (fun r => (toKeyed parse r).isNone) : Int) := by
  unfold removedReported
  have h1 : (store.filterMap (toKeyed parse)).length
      = store.countP (fun r => (toKeyed parse r).isSome) :=
    length_filterMap_eq_countP _ _
  have h2 := countP_isSome_add_isNone (toKeyed parse) store
  rw [h1]
  omega

/-- C10: before any recurrence arithmetic both pipelines coerce the
stored `Recurring Issue` text with the same total
`to_numeric(errors='coerce').fillna(0).astype(int)` step: any value that
does not parse as a number — including the missing value — becomes `0`;
the store load of the ingestion run and the preparation step of the
compactor both apply exactly this coercion. -/
theorem c10_recurring_coercion :
    (∀ s : String, numericVal s = none → toNumericFillna0 (some s) = 0)
    ∧ toNumericFillna0 none = 0
    ∧ (∀ raw : List RawStoreRec,
        (loadStore raw).map (fun r => r.recurring)
          = raw.map (fun r => toNumericFillna0 r.recurring))
    ∧ (∀ (parse : Option String → Option Int) (row : CsvRow) (kr : KeyedRow),
        toKeyed parse row = some kr →
          kr.recurring = toNumericFillna0 row.recurring) := by
  refine ⟨?_, rfl, ?_, ?_⟩
  · intro s h
    simp [toNumericFillna0, h]
  · intro raw
    simp [loadStore]
  · intro parse row kr h
    unfold toKeyed at h
    split at h
    · injection h with h2
      rw [← h2]
    · exact absurd h (by simp)

/-- C10 witness: a corrupted counter cell is reset to 0 by the load
coercion. -/
theorem c10_recurring_coercion_witness :
    numericVal "corrupted" = none ∧
    toNumericFillna0 (some "corrupted") = 0 ∧
    (loadStore [rawRecCorrupt]).map (fun r => r.recurring) = [0] := by
  refine ⟨by decide, c10_recurring_coercion.1 "corrupted" (by decide), ?_⟩
  rw [c10_recurring_coercion.2.2.1 [rawRecCorrupt]]
  decide

theorem ingestLoop_newly_mono (files : List SrcFile) :
    ∀ (processed : List String) (store : List StoreRec) (newly : List String),
    ∀ x ∈ newly, x ∈ (ingestLoop processed files store newly).2 := by
  induction files with
  | nil =>
    intro processed store newly x hx
    simpa [ingestLoop] using hx
  | cons f fs ih =>
    intro processed store newly x hx
    simp only [ingestLoop]
    split
    · exact ih _ _ _ x hx
    · split
      · exact ih _ _ _ x hx
      · split
        · exact ih _ _ _ x hx
        · exact ih _ _ _ x (List.mem_append_left _ hx)

theorem ingestLoop_covers (files : List SrcFile) :
    ∀ (processed : List String) (store : List StoreRec) (newly : List String),
    ∀ f ∈ files, isTabularName f.name = true → normalizeFile f ≠ none →
      processed.contains f.name = true ∨
        f.name ∈ (ingestLoop processed files store newly).2 := by
  induction files with
  | nil =>
    intro _ _ _ f hf
    cases hf
  | cons g fs ih =>
    intro processed store newly f hf htab hnorm
    rcases List.mem_cons.mp hf with hf | hf
    · subst hf
      simp only [ingestLoop]
      split
      · rename_i h1
        rw [htab] at h1
        cases h1
      · split
        · rename_i h2
          exact Or.inl h2
        · split
          · rename_i heq
            exact absurd heq hnorm
          · exact Or.inr (ingestLoop_newly_mono fs _ _ _ _
              (List.mem_append_right _ (List.mem_singleton.mpr rfl)))
    · simp only [ingestLoop]
      split
      · exact ih _ _ _ f hf htab hnorm
      · split
        · exact ih _ _ _ f hf htab hnorm
        · split
          · exact ih _ _ _ f hf htab hnorm
          · exact ih _ _ _ f hf htab hnorm

theorem ingestLoop_noop (files : List SrcFile) :
    ∀ (processed : List String) (store : List StoreRec) (newly : List String),
    (∀ f ∈ files, isTabularName f.name = true →
      processed.contains f.name = true ∨ normalizeFile f = none) →
    ingestLoop processed files store newly = (store, newly) := by
  induction files with
  | nil =>
    intro _ _ _ _
    rfl
  | cons g fs ih =>
    intro processed store newly hcov
    simp only [ingestLoop]
    split
    · exact ih _ _ _ (fun f hf => hcov f (List.mem_cons_of_mem _ hf))
    · rename_i h1
      have htab : isTabularName g.name = true := by
        cases hb : isTabularName g.name
        · exact absurd hb h1
        · rfl
      split
      · exact ih _ _ _ (fun f hf => hcov f (List.mem_cons_of_mem _ hf))
      · rename_i h2
        split
        · exact ih _ _ _ (fun f hf => hcov f (List.mem_cons_of_mem _ hf))
        · rename_i batch heq
          rcases hcov g (List.mem_cons_self _ _) htab with hc | hn
          · exact absurd hc h2
          · rw [heq] at hn
            cases hn

/-- C7: re-ingesting the same source directory with the ledger persisted
between the runs is a complete no-op: the second run returns the first
run's store unchanged, processes no file, and leaves the ledger as it
was. -/
theorem c7_second_run_noop (parse : Option String → Option Int)
    (files : List SrcFile) (store0 : List StoreRec) (ledger0 : List String) :
    runIngest parse files (runIngest parse files store0 ledger0).1
        (runIngest parse files store0 ledger0).2.2
      = ((runIngest parse files store0 ledger0).1, [],
          (runIngest parse files store0 ledger0).2.2) := by
  unfold runIngest
  have hcov : ∀ f ∈ files, isTabularName f.name = true →
      (ledger0 ++ (ingestLoop ledger0 files store0 []).2).contains f.name = true ∨
        normalizeFile f = none := by
    intro f hf htab
    by_cases hn : normalizeFile f = none
    · exact Or.inr hn
    · left
      rcases ingestLoop_covers files ledger0 store0 [] f hf htab hn with hc | hm
      · have : f.name ∈ ledger0 := by simpa using hc
        simpa using Or.inl this
      · simpa using Or.inr hm
  rw [ingestLoop_noop files _ _ [] hcov]
  have hsorted : List.Sorted (storeTsRel parse)
      (List.insertionSort (storeTsRel parse) (ingestLoop ledger0 files store0 []).1) :=
    List.sorted_insertionSort _ _
  simp [hsorted.insertionSort_eq]

theorem groupRunsAux_flatten (eq : α → α → Bool) (l : List α) :
    ∀ (x : α) (acc : List α),
    ((groupRunsAux eq l x acc).map (fun g => g.1 :: g.2)).flatten
      = x :: (acc.reverse ++ l) := by
  induction l with
  | nil =>
    intro x acc
    simp [groupRunsAux]
  | cons y ys ih =>
    intro x acc
    simp only [groupRunsAux]
    split
    · rw [ih]
      simp
    · simp only [List.map_cons, List.flatten_cons]
      rw [ih]
      simp

theorem groupRuns_flatten (eq : α → α → Bool) (l : List α) :
    ((groupRuns eq l).map (fun g => g.1 :: g.2)).flatten = l := by
  cases l with
  | nil => rfl
  | cons x xs => simpa using groupRunsAux_flatten eq xs x []

theorem groupRunsAux_head_mem (eq : α → α → Bool) (l : List α) :
    ∀ (x : α) (acc : List α), ∀ g ∈ groupRunsAux eq l x acc,
      g.1 = x ∨ g.1 ∈ l := by
  induction l with
  | nil =>
    intro x acc g hg
    rw [List.mem_singleton.mp hg]
    exact Or.inl rfl
  | cons y ys ih =>
    intro x acc g hg
    simp only [groupRunsAux] at hg
    split at hg
    · rcases ih x (y :: acc) g hg with h | h
      · exact Or.inl h
      · exact Or.inr (List.mem_cons_of_mem _ h)
    · rcases List.mem_cons.mp hg with h | h
      · rw [h]
        exact Or.inl rfl
      · rcases ih y [] g h with h2 | h2
        · exact Or.inr (h2 ▸ List.mem_cons_self _ _)
        · exact Or.inr (List.mem_cons_of_mem _ h2)

theorem groupRunsAux_run_key {κ : Type} (k : α → κ) (eq : α → α → Bool)
    (heq : ∀ a b, eq a b = true ↔ k a = k b) (l : List α) :
    ∀ (x : α) (acc : List α), (∀ y ∈ acc, k y = k x) →
    ∀ g ∈ groupRunsAux eq l x acc,
      ∀ y ∈ g.2, k y = k g.1 := by
  induction l with
  | nil =>
    intro x acc hacc g hg y hy
    rw [List.mem_singleton.mp hg] at hy ⊢
    exact hacc y (by simpa using hy)
  | cons z zs ih =>
    intro x acc hacc g hg y hy
    simp only [groupRunsAux] at hg
    split at hg
    · rename_i hz
      have hzx : k z = k x := ((heq x z).mp hz).symm
      refine ih x (z :: acc) ?_ g hg y hy
      intro w hw
      rcases List.mem_cons.mp hw with h | h
      · rw [h, hzx]
      · exact hacc w h
    · rcases List.mem_cons.mp hg with h | h
      · rw [h] at hy ⊢
        exact hacc y (by simpa using hy)
      · exact ih z [] (by simp) g h y hy

theorem groupRunsAux_head_rel (eq : α → α → Bool) (r : α → α → Prop) (l : List α) :
    ∀ (x : α) (acc : List α), (∀ z ∈ l, r x z) → (∀ y ∈ acc, r x y) →
    l.Pairwise r →
    ∀ g ∈ groupRunsAux eq l x acc, ∀ y ∈ g.2, r g.1 y := by
  induction l with
  | nil =>
    intro x acc _ hacc _ g hg y hy
    rw [List.mem_singleton.mp hg] at hy ⊢
    exact hacc y (by simpa using hy)
  | cons z zs ih =>
    intro x acc hxl hacc hl g hg y hy
    have hl2 := List.pairwise_cons.mp hl
    simp only [groupRunsAux] at hg
    split at hg
    · refine ih x (z :: acc) (fun w hw => hxl w (List.mem_cons_of_mem _ hw)) ?_ hl2.2 g hg y hy
      intro w hw
      rcases List.mem_cons.mp hw with h | h
      · rw [h]
        exact hxl z (List.mem_cons_self _ _)
      · exact hacc w h
    · rcases List.mem_cons.mp hg with h | h
      · rw [h] at hy ⊢
        exact hacc y (by simpa using hy)
      · exact ih z [] hl2.1 (by simp) hl2.2 g h y hy

theorem groupRunsAux_heads_lt {κ : Type} [LinearOrder κ] (k : α → κ)
    (eq : α → α → Bool) (heq : ∀ a b, eq a b = true ↔ k a = k b)
    (r : α → α → Prop) (hr : ∀ a b, r a b → k a ≤ k b) (l : List α) :
    ∀ (x : α) (acc : List α), (∀ z ∈ l, r x z) → l.Pairwise r →
    List.Pairwise (fun a b => k a < k b)
      ((groupRunsAux eq l x acc).map Prod.fst) := by
  induction l with
  | nil =>
    intro x acc _ _
    simp [groupRunsAux]
  | cons z zs ih =>
    intro x acc hxl hl
    have hl2 := List.pairwise_cons.mp hl
    simp only [groupRunsAux]
    split
    · exact ih x (z :: acc) (fun w hw => hxl w (List.mem_cons_of_mem _ hw)) hl2.2
    · rename_i hz
      have hxz : k x ≠ k z := fun hc => hz ((heq x z).mpr hc)
      simp only [List.map_cons, List.pairwise_cons]
      constructor
      · intro b hb
        rcases List.mem_map.mp hb with ⟨g, hg, hgb⟩
        have hxltz : k x < k z :=
          lt_of_le_of_ne (hr x z (hxl z (List.mem_cons_self _ _))) hxz
        rcases groupRunsAux_head_mem eq zs z [] g hg with h | h
        · rw [← hgb, h]
          exact hxltz
        · have : r z g.1 := hl2.1 g.1 h
          rw [← hgb]
          exact lt_of_lt_of_le hxltz (hr z g.1 this)
      · exact ih z [] hl2.1 hl2.2

theorem groupRunsAux_of_ne {κ : Type} (k : α → κ) (eq : α → α → Bool)
    (heq : ∀ a b, eq a b = true ↔ k a = k b) (l : List α) :
    ∀ x : α, (∀ y ∈ l, k x ≠ k y) → l.Pairwise (fun a b => k a ≠ k b) →
    groupRunsAux eq l x []
      = (x :: l).map (fun z => (z, [])) := by
  induction l with
  | nil =>
    intro x _ _
    rfl
  | cons z zs ih =>
    intro x hx hl
    have hl2 := List.pairwise_cons.mp hl
    simp only [groupRunsAux]
    rw [if_neg (fun hc => hx z (List.mem_cons_self _ _) ((heq x z).mp hc))]
    rw [ih z hl2.1 hl2.2]
    rfl

theorem keyTsRel_keyLe {a b : KeyedRow} (h : keyTsRel a b) : keyOf a ≤ keyOf b := by
  rcases h with h | ⟨h, _⟩
  · exact le_of_lt h
  · exact le_of_eq h

theorem keepRun_eq (g : KeyedRow × List KeyedRow) :
    keepRun g = { g.1 with recurring := g.1.recurring + (g.2.length : Int) } := by
  unfold keepRun
  by_cases h : g.2.length > 0
  · simp [h]
  · have h0 : g.2.length = 0 := by omega
    simp [h, h0]

theorem keyOf_keepRun (g : KeyedRow × List KeyedRow) :
    keyOf (keepRun g) = keyOf g.1 := by
  rw [keepRun_eq]
  rfl

theorem keyEqB_iff (a b : KeyedRow) : keyEqB a b = true ↔ keyOf a = keyOf b := by
  unfold keyEqB
  exact decide_eq_true_iff

theorem groupRuns_heads_lt_of_sorted {l : List KeyedRow}
    (hl : List.Pairwise keyTsRel l) :
    List.Pairwise (fun a b => keyOf a < keyOf b)
      ((groupRuns keyEqB l).map Prod.fst) := by
  cases l with
  | nil => simp [groupRuns]
  | cons x xs =>
    simp only [groupRuns]
    exact groupRunsAux_heads_lt keyOf keyEqB keyEqB_iff keyTsRel
      (fun a b h => keyTsRel_keyLe h) xs x []
      (List.pairwise_cons.mp hl).1 (List.pairwise_cons.mp hl).2

theorem groupRuns_run_key {l : List KeyedRow} :
    ∀ g ∈ groupRuns keyEqB l, ∀ y ∈ g.2, keyOf y = keyOf g.1 := by
  cases l with
  | nil => simp [groupRuns]
  | cons x xs =>
    simp only [groupRuns]
    exact groupRunsAux_run_key keyOf keyEqB keyEqB_iff xs x [] (by simp)

theorem groupRuns_head_rel {l : List KeyedRow} (hl : List.Pairwise keyTsRel l) :
    ∀ g ∈ groupRuns keyEqB l, ∀ y ∈ g.2, keyTsRel g.1 y := by
  cases l with
  | nil => simp [groupRuns]
  | cons x xs =>
    simp only [groupRuns]
    exact groupRunsAux_head_rel keyEqB keyTsRel xs x []
      (List.pairwise_cons.mp hl).1 (by simp) (List.pairwise_cons.mp hl).2

theorem groupRuns_of_ne {l : List KeyedRow}
    (h : List.Pairwise (fun a b => keyOf a ≠ keyOf b) l) :
    groupRuns keyEqB l = l.map (fun z => (z, [])) := by
  cases l with
  | nil => rfl
  | cons x xs =>
    simp only [groupRuns]
    exact groupRunsAux_of_ne keyOf keyEqB keyEqB_iff xs x (List.pairwise_cons.mp h).1
      (List.pairwise_cons.mp h).2

theorem pairwise_ne_unique {κ : Type} {P : α → κ} {l : List α}
    (h : List.Pairwise (fun a b => P a ≠ P b) l) :
    ∀ r ∈ l, ∀ s ∈ l, P r = P s → r = s := by
  induction l with
  | nil =>
    intro r hr
    cases hr
  | cons a t ih =>
    intro r hr s hs heq
    have h2 := List.pairwise_cons.mp h
    rcases List.mem_cons.mp hr with h3 | h3 <;> rcases List.mem_cons.mp hs with h4 | h4
    · rw [h3, h4]
    · rw [h3] at heq ⊢
      exact absurd heq (h2.1 s h4)
    · rw [h4] at heq ⊢
      exact absurd heq.symm (h2.1 r h3)
    · exact ih h2.2 r h3 s h4 heq

theorem keepRun_singleton (z : KeyedRow) : keepRun (z, []) = z := by
  rw [keepRun_eq]
  simp

theorem dedupKeyed_keys_pairwise_ne (rows : List KeyedRow) :
    List.Pairwise (fun a b => keyOf a ≠ keyOf b) (dedupKeyed rows) := by
  unfold dedupKeyed
  have hs : List.Pairwise keyTsRel (List.insertionSort keyTsRel rows) :=
    List.sorted_insertionSort _ _
  have h1 := groupRuns_heads_lt_of_sorted hs
  rw [List.pairwise_map] at h1
  have h2 : List.Pairwise (fun a b => keyOf a < keyOf b)
      ((groupRuns keyEqB (List.insertionSort keyTsRel rows)).map keepRun) := by
    rw [List.pairwise_map]
    exact h1.imp (fun {a b} h => by rw [keyOf_keepRun, keyOf_keepRun]; exact h)
  have h3 := List.perm_insertionSort tsDescRel
    ((groupRuns keyEqB (List.insertionSort keyTsRel rows)).map keepRun)
  exact (h3.pairwise_iff (fun {_ _} h => Ne.symm h)).mpr (h2.imp (fun h => ne_of_lt h))

theorem dedupKeyed_idem (rows : List KeyedRow) :
    (dedupKeyed (dedupKeyed rows)).Perm (dedupKeyed rows) := by
  have hne := dedupKeyed_keys_pairwise_ne rows
  conv_lhs => rw [dedupKeyed]
  have hsp := List.perm_insertionSort keyTsRel (dedupKeyed rows)
  have hne2 : List.Pairwise (fun a b => keyOf a ≠ keyOf b)
      (List.insertionSort keyTsRel (dedupKeyed rows)) :=
    (hsp.pairwise_iff (fun {_ _} h => Ne.symm h)).mpr hne
  rw [groupRuns_of_ne hne2, List.map_map]
  have hid : (keepRun ∘ fun z => (z, ([] : List KeyedRow))) = id :=
    funext fun z => keepRun_singleton z
  rw [hid, List.map_id]
  exact (List.perm_insertionSort tsDescRel _).trans hsp

/-- C8: compaction is idempotent — running the
sort/group/collapse/re-sort pass of `deduplicate_and_update` on the
output of a previous `deduplicate_and_update` removes no record and
changes no field of any record (the output is the same multiset of
records; and since every output record carries its full key and a parsed
timestamp by construction, the second run's `dropna` filter and
coercions are identities on it). -/
theorem c8_compaction_idempotent (parse : Option String → Option Int)
    (store : List CsvRow) :
    (dedupKeyed (deduplicate_and_update parse store)).Perm
      (deduplicate_and_update parse store) := by
  unfold deduplicate_and_update
  exact dedupKeyed_idem _

theorem countP_flatten_groups (groups : List (KeyedRow × List KeyedRow))
    (hhead : List.Pairwise (fun a b => keyOf a < keyOf b) (groups.map Prod.fst))
    (hmem : ∀ g ∈ groups, ∀ y ∈ g.2, keyOf y = keyOf g.1) :
    ∀ g ∈ groups,
      ((groups.map (fun h => h.1 :: h.2)).flatten).countP (fun p => keyEqB p g.1)
        = g.2.length + 1 := by
  induction groups with
  | nil =>
    intro g hg
    cases hg
  | cons G Gs ih =>
    intro g hg
    have hh : (∀ b ∈ Gs.map Prod.fst, keyOf G.1 < keyOf b) ∧
        List.Pairwise (fun a b => keyOf a < keyOf b) (Gs.map Prod.fst) := by
      simpa [List.pairwise_cons] using hhead
    have hGmem : ∀ y ∈ G.1 :: G.2, keyOf y = keyOf G.1 := by
      intro y hy
      rcases List.mem_cons.mp hy with h | h
      · rw [h]
      · exact hmem G (List.mem_cons_self _ _) y h
    simp only [List.map_cons, List.flatten_cons, List.countP_append]
    rcases List.mem_cons.mp hg with h | h
    · subst h
      have hz : ((Gs.map (fun h => h.1 :: h.2)).flatten).countP
          (fun p => keyEqB p g.1) = 0 := by
        refine List.countP_eq_zero.mpr ?_
        intro y hy
        rcases List.mem_flatten.mp hy with ⟨s, hs, hys⟩
        rcases List.mem_map.mp hs with ⟨g2, hg2, hsg⟩
        have hky : keyOf y = keyOf g2.1 := by
          rw [← hsg] at hys
          rcases List.mem_cons.mp hys with h | h
          · rw [h]
          · exact hmem g2 (List.mem_cons_of_mem _ hg2) y h
        have hlt : keyOf g.1 < keyOf g2.1 :=
          hh.1 g2.1 (List.mem_map.mpr ⟨g2, hg2, rfl⟩)
        simp only [keyEqB, decide_eq_true_iff]
        rw [hky]
        exact (ne_of_gt hlt)
      have hfull : (g.1 :: g.2).countP (fun p => keyEqB p g.1)
          = (g.1 :: g.2).length := by
        refine List.countP_eq_length.mpr ?_
        intro y hy
        simp only [keyEqB, decide_eq_true_iff]
        exact hGmem y hy
      rw [hz, hfull]
      simp [Nat.add_comm]
    · have hne : keyOf G.1 ≠ keyOf g.1 :=
        ne_of_lt (hh.1 g.1 (List.mem_map.mpr ⟨g, h, rfl⟩))
      have hz : (G.1 :: G.2).countP (fun p => keyEqB p g.1) = 0 := by
        refine List.countP_eq_zero.mpr ?_
        intro y hy
        simp only [keyEqB, decide_eq_true_iff]
        rw [hGmem y hy]
        exact hne
      rw [hz]
      have := ih hh.2 (fun g2 hg2 => hmem g2 (List.mem_cons_of_mem _ hg2)) g h
      omega

/-- C2: compaction groups the filter-surviving records by the five-field
key; the output keeps exactly one record per occurring key (first
conjunct: at most one, second: at least one); every kept record is a
maximal-timestamp representative of its key class whose
`Recurring Issue` is its own coerced value plus (class size − 1), all
other fields verbatim (third conjunct) — in particular every output
record derives from a record that passed the
missing-key/unparsable-timestamp filter, so filtered records are
excluded from output entirely. -/
theorem c2_compaction_shape (parse : Option String → Option Int)
    (store : List CsvRow) :
    (∀ r ∈ deduplicate_and_update parse store,
      ∀ s ∈ deduplicate_and_update parse store, keyOf r = keyOf s → r = s)
    ∧ (∀ q ∈ store.filterMap (toKeyed parse),
      ∃ r ∈ deduplicate_and_update parse store, keyOf r = keyOf q)
    ∧ (∀ r ∈ deduplicate_and_update parse store,
      ∃ q ∈ store.filterMap (toKeyed parse),
        keyOf q = keyOf r
        ∧ (∀ p ∈ store.filterMap (toKeyed parse), keyOf p = keyOf r → p.ts ≤ q.ts)
        ∧ r = { q with recurring := q.recurring
            + (((store.filterMap (toKeyed parse)).countP
                  (fun p => keyEqB p r) : Int) - 1) }) := by
  have hu := pairwise_ne_unique
    (dedupKeyed_keys_pairwise_ne (store.filterMap (toKeyed parse)))
  unfold deduplicate_and_update dedupKeyed
  set ok := store.filterMap (toKeyed parse) with hok
  set srt := List.insertionSort keyTsRel ok with hsrt
  have hperm1 : srt.Perm ok := List.perm_insertionSort _ _
  have hsorted : List.Pairwise keyTsRel srt := List.sorted_insertionSort _ _
  set groups := groupRuns keyEqB srt with hgroups
  have hflat : ((groups.map (fun h => h.1 :: h.2)).flatten) = srt :=
    groupRuns_flatten _ _
  have hkeys := groupRuns_heads_lt_of_sorted hsorted
  have hrunkey := groupRuns_run_key (l := srt)
  have hheadrel := groupRuns_head_rel hsorted
  have hgroupsne : List.Pairwise (fun g h => keyOf g.1 ≠ keyOf h.1) groups :=
    (List.pairwise_map.mp hkeys).imp (fun h => ne_of_lt h)
  have hkeymem : ∀ g ∈ groups, ∀ p ∈ g.1 :: g.2, keyOf p = keyOf g.1 := by
    intro g hg p hp
    rcases List.mem_cons.mp hp with h | h
    · rw [h]
    · exact hrunkey g hg p h
  have hmemgroup : ∀ p ∈ ok, ∃ g ∈ groups, p ∈ g.1 :: g.2 := by
    intro p hp
    have hp2 : p ∈ srt := hperm1.mem_iff.mpr hp
    rw [← hflat] at hp2
    rcases List.mem_flatten.mp hp2 with ⟨s, hs, hps⟩
    rcases List.mem_map.mp hs with ⟨g, hg, hsg⟩
    exact ⟨g, hg, hsg ▸ hps⟩
  have hgmem : ∀ g ∈ groups, g.1 ∈ ok := by
    intro g hg
    refine hperm1.mem_iff.mp ?_
    rw [← hflat]
    exact List.mem_flatten.mpr ⟨g.1 :: g.2, List.mem_map.mpr ⟨g, hg, rfl⟩,
      List.mem_cons_self _ _⟩
  have hperm2 := List.perm_insertionSort tsDescRel (groups.map keepRun)
  refine ⟨?_, ?_, ?_⟩
  · exact hu
  · intro q hq
    rcases hmemgroup q hq with ⟨g, hg, hqg⟩
    refine ⟨keepRun g, hperm2.mem_iff.mpr (List.mem_map.mpr ⟨g, hg, rfl⟩), ?_⟩
    rw [keyOf_keepRun]
    exact (hkeymem g hg q hqg).symm
  · intro r hr
    rcases List.mem_map.mp (hperm2.mem_iff.mp hr) with ⟨g, hg, hgr⟩
    have hkr : keyOf r = keyOf g.1 := by
      rw [← hgr]
      exact keyOf_keepRun g
    refine ⟨g.1, hgmem g hg, hkr.symm, ?_, ?_⟩
    · intro p hp hpk
      rcases hmemgroup p hp with ⟨g2, hg2, hpg2⟩
      have : g2 = g := by
        refine pairwise_ne_unique (P := fun h => keyOf h.1) hgroupsne g2 hg2 g hg ?_
        show keyOf g2.1 = keyOf g.1
        rw [← hkeymem g2 hg2 p hpg2, hpk, hkr]
      rw [this] at hpg2
      rcases List.mem_cons.mp hpg2 with h | h
      · rw [h]
      · rcases hheadrel g hg p h with hlt | ⟨_, hts⟩
        · exact absurd hlt (by rw [hkeymem g hg p (List.mem_cons_of_mem _ h)]; exact lt_irrefl _)
        · exact hts
    · have hcnt : ok.countP (fun p => keyEqB p r) = g.2.length + 1 := by
        have hfun : (fun p => keyEqB p r) = (fun p => keyEqB p g.1) := by
          funext p
          simp only [keyEqB]
          rw [hkr]
        rw [hfun, ← hperm1.countP_eq, ← hflat]
        exact countP_flatten_groups groups hkeys hrunkey g hg
      rw [hcnt, ← hgr, keepRun_eq]
      have : ((g.2.length + 1 : Nat) : Int) - 1 = (g.2.length : Int) := by
        push_cast
        ring
      rw [this]

/-- C2 witness: for the three-row sample store, the surviving key class
is represented in the compacted output. -/
theorem c2_compaction_shape_witness :
    ∃ r ∈ deduplicate_and_update parseDigits [csvRowNoIp, csvRowA, csvRowB],
      keyOf r = keyOf ⟨"High", "10.0.0.1", "tcp", "443", "open", 2, some "ssl", 1, []⟩ :=
  (c2_compaction_shape parseDigits [csvRowNoIp, csvRowA, csvRowB]).2.1
    ⟨"High", "10.0.0.1", "tcp", "443", "open", 2, some "ssl", 1, []⟩ (by decide)

/-- C7 witness: one concrete file, two consecutive runs with the ledger
carried over. -/
theorem c7_second_run_noop_witness :
    runIngest parseDigits [srcFileNoIp]
        (runIngest parseDigits [srcFileNoIp] [] []).1
        (runIngest parseDigits [srcFileNoIp] [] []).2.2
      = ((runIngest parseDigits [srcFileNoIp] [] []).1, [],
          (runIngest parseDigits [srcFileNoIp] [] []).2.2) :=
  c7_second_run_noop parseDigits [srcFileNoIp] [] []

/-- C8 witness: re-compacting the compacted three-row sample store. -/
theorem c8_compaction_idempotent_witness :
    (dedupKeyed (deduplicate_and_update parseDigits
        [csvRowNoIp, csvRowA, csvRowB])).Perm
      (deduplicate_and_update parseDigits [csvRowNoIp, csvRowA, csvRowB]) :=
  c8_compaction_idempotent parseDigits [csvRowNoIp, csvRowA, csvRowB]

/-- C9 amended witness: 3 input records, 1 output record, 1 record
dropped by the filter — the reported count is 3 − 1 − 1 = 1. -/
theorem c9_amended_witness :
    removedReported parseDigits [csvRowNoIp, csvRowA, csvRowB]
      = (3 : Int) - 1 - 1 :=
  (c9_amended parseDigits [csvRowNoIp, csvRowA, csvRowB]).trans (by decide)
